import Mathlib

/-!
# A verification model of the redditquery index construction and retrieval engine

Shallow embedding of `redditquery/database.py`, `redditquery/utils.py` and
`redditquery/index.py`.  SQLite tables are modelled as lists of rows, the
`auto_delete` trigger as an explicit filter performed with each per-term
`DELETE` statement, Python's `ZeroDivisionError` (and `None[0]` subscription
errors) as `Option`, and real-valued scores as `ℚ`.  The irrational functions
`math.log2` and `math.sqrt` are carried as explicit function parameters
`log2 sqrt : ℚ → ℚ`; theorems that depend on particular values of them state
those values (e.g. `log2 1 = 0`, `sqrt 0 = 0`, both of which hold exactly in
the double-precision source) as hypotheses.
-/

namespace RedditQuery

/-- A row of `doc_term_table`: `(document_id, term_id, score)`. -/
structure Row where
  doc : ℕ
  term : ℕ
  score : ℚ
deriving DecidableEq, Repr

/-- A row of `document_table`: `(document_id, document_name, fulltext)`. -/
structure DocRow where
  doc : ℕ
  name : String
  fulltext : String
deriving DecidableEq, Repr

/-- The database state of `database.DataBase`: the sparse term-document
matrix and the document table. -/
structure DataBase where
  matrix : List Row
  docs : List DocRow
deriving DecidableEq, Repr

/-- `DataBase.insert_document`: one `document_table` row plus one
`doc_term_table` row per `(term_id, score)` pair. -/
def DataBase.insert_document (db : DataBase) (d : ℕ) (name : String)
    (term_scores : List (ℕ × ℚ)) (ft : String) : DataBase :=
  { matrix := db.matrix ++ term_scores.map (fun p => ⟨d, p.1, p.2⟩),
    docs := db.docs ++ [⟨d, name, ft⟩] }

/-- `DataBase.retrieve_term`: the postings list
(`SELECT document_id FROM doc_term_table WHERE term_id == ?`). -/
def DataBase.retrieve_term (db : DataBase) (t : ℕ) : List ℕ :=
  (db.matrix.filter (fun r => r.term == t)).map Row.doc

/-- `DataBase.retrieve_document`:
`SELECT term_id, score FROM doc_term_table WHERE document_id == ?`. -/
def DataBase.retrieve_document (db : DataBase) (d : ℕ) : List (ℕ × ℚ) :=
  (db.matrix.filter (fun r => r.doc == d)).map (fun r => (r.term, r.score))

/-- `DataBase.get_fulltext`: `fetchone()` on the single matching row, then
`[0]`.  Subscripting the `None` returned for a missing row raises a
`TypeError` in Python; that crash is modelled as `none`. -/
def DataBase.get_fulltext (db : DataBase) (d : ℕ) : Option String :=
  (db.docs.find? (fun r => r.doc == d)).map DocRow.fulltext

/-- `DataBase.get_document_name`: `fetchone()[0]`, crashing on a missing row
exactly as `get_fulltext` does; the crash is modelled as `none`. -/
def DataBase.get_document_name (db : DataBase) (d : ℕ) : Option String :=
  (db.docs.find? (fun r => r.doc == d)).map DocRow.name

/-- `DataBase.get_document_frequency`: number of `doc_term_table` rows whose
`term_id` matches (one row per containing document by primary-key
uniqueness). -/
def DataBase.get_document_frequency (db : DataBase) (t : ℕ) : ℕ :=
  (db.matrix.filter (fun r => r.term == t)).length

/-- `sum(score)` of a term's rows, the `total` of the grouped subquery in
`DataBase.get_infrequent`. -/
def DataBase.term_total (db : DataBase) (t : ℕ) : ℚ :=
  ((db.matrix.filter (fun r => r.term == t)).map Row.score).sum

/-- The distinct `term_id`s present in the sparse matrix (`GROUP BY term_id`). -/
def DataBase.termsOf (db : DataBase) : List ℕ :=
  (db.matrix.map Row.term).dedup

/-- The distinct `document_id`s present in the sparse matrix. -/
def DataBase.matrixDocs (db : DataBase) : List ℕ :=
  (db.matrix.map Row.doc).dedup

/-- The `document_id`s having a `document_table` row. -/
def DataBase.docIds (db : DataBase) : List ℕ :=
  db.docs.map DocRow.doc

/-- `DataBase.get_infrequent`: all term ids whose sum of scores is `≤` the
threshold (`WHERE total <= ?`). -/
def DataBase.get_infrequent (db : DataBase) (k : ℚ) : List ℕ :=
  db.termsOf.filter (fun t => decide (db.term_total t ≤ k))

/-- One `DELETE FROM doc_term_table WHERE term_id == ?` statement.  The
`auto_delete` trigger fires after each deleted row and removes the
`document_table` row of any document left without postings; since each
document holds at most one row per term, the net effect of the statement is:
a document's row is removed iff the document had a posting with term `t` and
retains no posting afterwards. -/
def DataBase.remove_term (db : DataBase) (t : ℕ) : DataBase :=
  { matrix := db.matrix.filter (fun r => !(r.term == t)),
    docs := db.docs.filter (fun dr =>
      !(db.matrix.any (fun r => r.doc == dr.doc && r.term == t) &&
        !((db.matrix.filter (fun r => !(r.term == t))).any
            (fun r => r.doc == dr.doc)))) }

/-- `DataBase.remove_terms`: `executemany` of the per-term delete statement. -/
def DataBase.remove_terms (db : DataBase) (ts : List ℕ) : DataBase :=
  ts.foldl DataBase.remove_term db

/-- `DataBase.update_documents`: `UPDATE doc_term_table SET score = ? WHERE
document_id == ? AND term_id == ?`, executed per `(score, doc, term)` tuple. -/
def DataBase.update_documents (db : DataBase) (updates : List (ℚ × ℕ × ℕ)) : DataBase :=
  updates.foldl (fun acc u =>
    { acc with matrix := acc.matrix.map (fun r =>
        if r.doc == u.2.1 && r.term == u.2.2 then { r with score := u.1 } else r) }) db

/-- The state of `utils.Numberer`: the `known` dict (insertion-ordered
association list) and the `num_keys` counter. -/
structure Numberer where
  known : List (String × ℕ)
  num_keys : ℕ
deriving DecidableEq, Repr

/-- Side-effect-free lookup in the `known` dict (`self.known[key]` when it
does not raise `KeyError`). -/
def Numberer.lookup (n : Numberer) (key : String) : Option ℕ :=
  (n.known.find? (fun p => p.1 == key)).map Prod.snd

/-- `Numberer.get`: return the known number, or increment `num_keys`,
record the new association and return the fresh number. -/
def Numberer.get (n : Numberer) (key : String) : ℕ × Numberer :=
  match n.lookup key with
  | some v => (v, n)
  | none => (n.num_keys + 1, ⟨n.known ++ [(key, n.num_keys + 1)], n.num_keys + 1⟩)

/-- `Numberer.remove_values`: delete every association whose value is in the
given collection; `num_keys` is untouched. -/
def Numberer.remove_values (n : Numberer) (vs : List ℕ) : Numberer :=
  ⟨n.known.filter (fun p => !(vs.contains p.2)), n.num_keys⟩

/-- Stateful mapping of `Numberer.get` over a token list, as in the list
comprehension of `InvertedIndex.process_document`. -/
def Numberer.getList (n : Numberer) (keys : List String) : List ℕ × Numberer :=
  match keys with
  | [] => ([], n)
  | k :: ks =>
    let p := n.get k
    let q := p.2.getList ks
    (p.1 :: q.1, q.2)

/-- First-occurrence deduplication, matching the iteration order of a Python
`Counter` built from a list. -/
def firstOccs : List ℕ → List ℕ
  | [] => []
  | t :: ts => t :: (firstOccs ts).filter (fun u => !(u == t))

/-- `Counter(terms).items()`: each distinct term id with its multiplicity. -/
def counterItems (terms : List ℕ) : List (ℕ × ℕ) :=
  (firstOccs terms).map (fun t => (t, terms.count t))

/-- The in-memory state of `index.InvertedIndex`. -/
structure Index where
  database : DataBase
  vocabulary_indices : Numberer
  num_documents : ℕ
deriving DecidableEq, Repr

/-- The empty index state before `make_indices`. -/
def Index.init : Index := ⟨⟨[], []⟩, ⟨[], 0⟩, 0⟩

/-- `InvertedIndex.process_document`: intern the tokens, count term ids,
insert one document, bump `num_documents`. -/
def Index.process_document (idx : Index) (doc : String × List String × String) : Index :=
  let p := idx.vocabulary_indices.getList doc.2.1
  let counts := counterItems p.1
  { database := idx.database.insert_document idx.num_documents doc.1
      (counts.map (fun q => (q.1, (q.2 : ℚ)))) doc.2.2,
    vocabulary_indices := p.2,
    num_documents := idx.num_documents + 1 }

/-- `InvertedIndex.make_indices`: ingest the document stream in order. -/
def Index.make_indices (idx : Index) (docs : List (String × List String × String)) : Index :=
  docs.foldl Index.process_document idx

/-- `InvertedIndex.remove_infrequent`: select the infrequent term ids, delete
their postings, drop them from the vocabulary. -/
def Index.remove_infrequent (idx : Index) (k : ℚ) : Index :=
  { idx with
    database := idx.database.remove_terms (idx.database.get_infrequent k),
    vocabulary_indices :=
      idx.vocabulary_indices.remove_values (idx.database.get_infrequent k) }

/-- `InvertedIndex.get_idf`:
`log2(self.num_documents / max(self.get_document_frequency(term_id), 1))`,
with `math.log2` as the parameter `log2`. -/
def get_idf (log2 : ℚ → ℚ) (numDocuments : ℕ) (db : DataBase) (t : ℕ) : ℚ :=
  log2 ((numDocuments : ℚ) / max (db.get_document_frequency t : ℚ) 1)

/-- `InvertedIndex.tfidf`: `frequency * self.get_idf(term_id)`. -/
def tfidf (log2 : ℚ → ℚ) (numDocuments : ℕ) (db : DataBase) (t : ℕ) (frequency : ℚ) : ℚ :=
  frequency * get_idf log2 numDocuments db t

/-- `InvertedIndex.get_idf` on an index state. -/
def Index.get_idf (log2 : ℚ → ℚ) (idx : Index) (t : ℕ) : ℚ :=
  RedditQuery.get_idf log2 idx.num_documents idx.database t

/-- `utils.l2_norm`: `sqrt(sum([value**2 for value in values]))`, with
`math.sqrt` as the parameter `sqrt`. -/
def l2_norm (sqrt : ℚ → ℚ) (values : List ℚ) : ℚ :=
  sqrt ((values.map (fun v => v ^ 2)).sum)

/-- The comprehension `[(tfidf/norm, doc_id, term_id) for term_id, tfidf in
tfidfs]` of `transform_to_tfidf`.  Dividing by a zero norm raises Python's
`ZeroDivisionError`, modelled as `none`; an empty comprehension performs no
division at all. -/
def normalizeDoc (tfidfs : List (ℕ × ℚ)) (norm : ℚ) (d : ℕ) :
    Option (List (ℚ × ℕ × ℕ)) :=
  if tfidfs.isEmpty then some []
  else if norm = 0 then none
  else some (tfidfs.map (fun p => (p.2 / norm, d, p.1)))

/-- The body of the `transform_to_tfidf` loop for one `doc_id`: read the
document's frequencies, compute tf-idfs, normalize, write the updates.
Batching updates every 10000 documents only groups the writes and is elided:
score updates change no row's `document_id` or `term_id`, so later reads see
the same rows either way. -/
def Index.transform_step (log2 sqrt : ℚ → ℚ) (numDocuments : ℕ) (db : DataBase)
    (d : ℕ) : Option DataBase :=
  let frequencies := db.retrieve_document d
  let tfidfs := frequencies.map (fun p => (p.1, tfidf log2 numDocuments db p.1 p.2))
  let norm := l2_norm sqrt (tfidfs.map Prod.snd)
  (normalizeDoc tfidfs norm d).map db.update_documents

/-- `InvertedIndex.transform_to_tfidf`: run the per-document normalization
over `doc_id = 0 .. num_documents - 1`; `none` when any document raises
`ZeroDivisionError`. -/
def Index.transform_to_tfidf (log2 sqrt : ℚ → ℚ) (idx : Index) : Option Index :=
  ((List.range idx.num_documents).foldlM
    (Index.transform_step log2 sqrt idx.num_documents) idx.database).map
    (fun db => { idx with database := db })

/-- The `InvertedIndex.__init__` pipeline restricted to its data effects:
`make_indices`, `remove_infrequent`, `transform_to_tfidf`. -/
def buildIndex (docs : List (String × List String × String)) (k : ℚ)
    (log2 sqrt : ℚ → ℚ) : Option Index :=
  ((Index.init.make_indices docs).remove_infrequent k).transform_to_tfidf log2 sqrt

/-- `InvertedIndex.get_term_id` / `QueryProcessor.get_term_id`: delegate to
`Numberer.get`, whose state change is threaded through the index. -/
def Index.get_term_id (idx : Index) (term : String) : ℕ × Index :=
  let p := idx.vocabulary_indices.get term
  (p.1, { idx with vocabulary_indices := p.2 })

/-- One iteration of the candidate loop of `QueryProcessor.query_index`:
intersect or union the accumulated candidates with the term's postings. -/
def candidateStep (db : DataBase) (conjunctive : Bool) (cands : Finset ℕ)
    (t : ℕ) : Finset ℕ :=
  if conjunctive then cands ∩ (db.retrieve_term t).toFinset
  else cands ∪ (db.retrieve_term t).toFinset

/-- The candidate-set loop of `QueryProcessor.query_index`.  `candidates` is
assigned `set()` on the line before the loop, so the loop's test
`'candidates' not in locals()` is false on every iteration (the name is
already bound); the fold therefore starts from the empty set and takes the
`conjunctive` or else-branch each time. -/
def queryCandidates (db : DataBase) (term_ids : List ℕ) (conjunctive : Bool) :
    Finset ℕ :=
  term_ids.foldl (candidateStep db conjunctive) ∅

/-- `QueryProcessor.query_to_tfidf`: the query's tf-idf vector, L2-normalized;
`none` models the `ZeroDivisionError` raised on a zero norm with a nonempty
vector. -/
def query_to_tfidf (log2 sqrt : ℚ → ℚ) (numDocuments : ℕ) (db : DataBase)
    (query : List ℕ) : Option (List (ℕ × ℚ)) :=
  let query_tfidfs := query.map (fun t => (t, tfidf log2 numDocuments db t 1))
  let norm := l2_norm sqrt (query_tfidfs.map Prod.snd)
  if query_tfidfs.isEmpty then some []
  else if norm = 0 then none
  else some (query_tfidfs.map (fun p => (p.1, p.2 / norm)))

/-- `QueryProcessor.get_similarity`: the dot product of the query vector with
the candidate's stored vector (terms absent from the candidate contribute
nothing), paired with the candidate id. -/
def get_similarity (db : DataBase) (query_tfidfs : List (ℕ × ℚ)) (candidate : ℕ) :
    ℚ × ℕ :=
  (query_tfidfs.foldl (fun cosine p =>
    match (db.retrieve_document candidate).find? (fun q => q.1 == p.1) with
    | some q => cosine + p.2 * q.2
    | none => cosine) 0, candidate)

/-- The order in which `heapq.nlargest` emits `(similarity, doc_id)` tuples:
descending lexicographic tuple comparison — larger similarity first, and on
equal similarity larger `document_id` first. -/
def simGE (a b : ℚ × ℕ) : Prop :=
  b.1 < a.1 ∨ (b.1 = a.1 ∧ b.2 ≤ a.2)

instance : DecidableRel simGE := fun a b => by
  unfold simGE; exact instDecidableOr

/-- `heapq.nlargest(n, xs)`, equivalent (per its documentation) to
`sorted(xs, reverse=True)[:n]`. -/
def nlargest (n : ℕ) (xs : List (ℚ × ℕ)) : List (ℚ × ℕ) :=
  (xs.insertionSort simGE).take n

/-- The ranked result sequence of `QueryProcessor.query_index`: similarities
of all candidates, then the top `num_results` by `nlargest`. -/
def queryResults (db : DataBase) (query_tfidfs : List (ℕ × ℚ))
    (candidates : List ℕ) (num_results : ℕ) : List (ℚ × ℕ) :=
  nlargest num_results (candidates.map (get_similarity db query_tfidfs))

/-! ## Properties of `Numberer` -/

/-- Dictionary invariant: every stored number is at most the counter.  It
holds of the initial state and is preserved by `get` and `remove_values`, so
every id ever returned by `get` in a run is bounded by the current counter. -/
def Numberer.Inv (n : Numberer) : Prop :=
  ∀ p ∈ n.known, p.2 ≤ n.num_keys

lemma Numberer.lookup_some_mem {n : Numberer} {w : String} {v : ℕ}
    (h : n.lookup w = some v) : (w, v) ∈ n.known := by
  unfold Numberer.lookup at h
  cases hf : n.known.find? (fun p => p.1 == w) with
  | none => rw [hf] at h; simp at h
  | some q =>
    rw [hf] at h
    simp only [Option.map_some', Option.some_inj] at h
    have hq := List.mem_of_find?_eq_some hf
    have hqe := List.find?_some hf
    simp only [beq_iff_eq] at hqe
    have : (w, v) = q := by
      cases q with
      | mk a b => simp_all
    rw [this]
    exact hq

lemma Numberer.lookup_none_find? {n : Numberer} {w : String}
    (h : n.lookup w = none) : n.known.find? (fun p => p.1 == w) = none := by
  unfold Numberer.lookup at h
  cases hf : n.known.find? (fun p => p.1 == w) with
  | none => rfl
  | some q => rw [hf] at h; simp at h

lemma Numberer.get_of_lookup_none {n : Numberer} {w : String}
    (h : n.lookup w = none) :
    n.get w = (n.num_keys + 1, ⟨n.known ++ [(w, n.num_keys + 1)], n.num_keys + 1⟩) := by
  unfold Numberer.get
  rw [h]

lemma Numberer.get_of_lookup_some {n : Numberer} {w : String} {v : ℕ}
    (h : n.lookup w = some v) : n.get w = (v, n) := by
  unfold Numberer.get
  rw [h]

lemma Numberer.inv_get {n : Numberer} {w : String} (h : n.Inv) :
    ((n.get w).2).Inv := by
  cases hl : n.lookup w with
  | some v => rw [Numberer.get_of_lookup_some hl]; exact h
  | none =>
    rw [Numberer.get_of_lookup_none hl]
    intro p hp
    rcases List.mem_append.mp hp with hp | hp
    · exact le_trans (h p hp) (Nat.le_succ _)
    · simp at hp
      simp [hp]

lemma Numberer.inv_remove {n : Numberer} {vs : List ℕ} (h : n.Inv) :
    (n.remove_values vs).Inv := by
  intro p hp
  exact h p (List.mem_filter.mp hp).1

/-- C7.  `Numberer.get` is idempotent per key (the second call returns the
same id and leaves the state unchanged); `remove_values` never changes the
`num_keys` counter; `get` keeps the invariant and never decreases the
counter, and the id it returns is bounded by the new counter; and after a
removal, interning a key that is (no longer) known returns an id strictly
greater than every id stored in the pre-removal dictionary — in particular
greater than each removed id, so removed ids are never reused. -/
theorem claim_C7 :
    (∀ (n : Numberer) (w : String), ((n.get w).2).get w = n.get w) ∧
    (∀ (n : Numberer) (vs : List ℕ), (n.remove_values vs).num_keys = n.num_keys) ∧
    (∀ (n : Numberer) (w : String), n.Inv →
      ((n.get w).2).Inv ∧ (n.get w).1 ≤ ((n.get w).2).num_keys ∧
        n.num_keys ≤ ((n.get w).2).num_keys) ∧
    (∀ (n : Numberer) (vs : List ℕ) (w : String), n.Inv →
      (n.remove_values vs).lookup w = none →
      ∀ v ∈ n.known.map Prod.snd, v < ((n.remove_values vs).get w).1) := by
  refine ⟨?_, ?_, ?_, ?_⟩
  · intro n w
    cases hl : n.lookup w with
    | some v =>
      rw [Numberer.get_of_lookup_some hl, Numberer.get_of_lookup_some hl]
    | none =>
      rw [Numberer.get_of_lookup_none hl]
      have hl2 : (Numberer.mk (n.known ++ [(w, n.num_keys + 1)]) (n.num_keys + 1)).lookup w
          = some (n.num_keys + 1) := by
        unfold Numberer.lookup
        rw [List.find?_append, Numberer.lookup_none_find? hl]
        simp
      rw [Numberer.get_of_lookup_some hl2]
  · intro n vs
    rfl
  · intro n w h
    refine ⟨Numberer.inv_get h, ?_, ?_⟩
    · cases hl : n.lookup w with
      | some v =>
        rw [Numberer.get_of_lookup_some hl]
        exact h _ (Numberer.lookup_some_mem hl)
      | none =>
        rw [Numberer.get_of_lookup_none hl]
    · cases hl : n.lookup w with
      | some v =>
        rw [Numberer.get_of_lookup_some hl]
      | none =>
        rw [Numberer.get_of_lookup_none hl]
        exact Nat.le_succ _
  · intro n vs w hinv hl v hv
    rw [Numberer.get_of_lookup_none hl]
    simp only [List.mem_map] at hv
    obtain ⟨p, hp, rfl⟩ := hv
    have : p.2 ≤ n.num_keys := hinv p hp
    change p.2 < n.num_keys + 1
    omega

/-- Witness for C7 at a concrete dictionary: after removing id 2, interning
the new key `"c"` returns an id greater than the removed id 2. -/
theorem claim_C7_witness :
    2 < ((Numberer.remove_values ⟨[("a", 1), ("b", 2)], 2⟩ [2]).get "c").1 :=
  claim_C7.2.2.2 ⟨[("a", 1), ("b", 2)], 2⟩ [2] "c"
    (by unfold Numberer.Inv; decide) (by decide) 2 (by decide)

/-! ## Query-time term resolution (C2) -/

/-- C2, counterexample.  The claim asserts that resolving a query token
leaves the dictionary's map and counter unchanged and that an absent token
is not added.  At the concrete index whose dictionary knows only `"x"`
(id 1, counter 1), resolving the unknown token `"z"` changes the map, bumps
the counter to 2 and adds `"z"`: the claimed conjunction is false. -/
theorem claim_C2_counterexample :
    ¬(((Index.get_term_id ⟨⟨[⟨0, 1, 1⟩], [⟨0, "docA", "tA"⟩]⟩, ⟨[("x", 1)], 1⟩, 1⟩
          "z").2).vocabulary_indices.known = [("x", 1)] ∧
      ((Index.get_term_id ⟨⟨[⟨0, 1, 1⟩], [⟨0, "docA", "tA"⟩]⟩, ⟨[("x", 1)], 1⟩, 1⟩
          "z").2).vocabulary_indices.num_keys = 1 ∧
      ((Index.get_term_id ⟨⟨[⟨0, 1, 1⟩], [⟨0, "docA", "tA"⟩]⟩, ⟨[("x", 1)], 1⟩, 1⟩
          "z").2).vocabulary_indices.lookup "z" = none) := by
  decide

/-- C2, amended.  Resolving a token already in the dictionary has no side
effect (the id is returned and the whole index state is unchanged).  A token
absent from the dictionary is not mapped to a sentinel: `get_term_id`
allocates the next id, increments the counter and records the token; the
database is untouched, and — whenever every term id in the matrix is bounded
by the counter, as ids allocated by the dictionary are — the fresh id's
postings list is empty, so the query outcome matches the sentinel reading
even though the dictionary is polluted. -/
theorem claim_C2 :
    (∀ (idx : Index) (w : String) (v : ℕ),
      idx.vocabulary_indices.lookup w = some v → idx.get_term_id w = (v, idx)) ∧
    (∀ (idx : Index) (w : String),
      idx.vocabulary_indices.lookup w = none →
      (∀ r ∈ idx.database.matrix, r.term ≤ idx.vocabulary_indices.num_keys) →
      (idx.get_term_id w).1 = idx.vocabulary_indices.num_keys + 1 ∧
      ((idx.get_term_id w).2).vocabulary_indices.num_keys
          = idx.vocabulary_indices.num_keys + 1 ∧
      ((idx.get_term_id w).2).vocabulary_indices.lookup w
          = some (idx.vocabulary_indices.num_keys + 1) ∧
      ((idx.get_term_id w).2).database = idx.database ∧
      idx.database.retrieve_term ((idx.get_term_id w).1) = []) := by
  constructor
  · intro idx w v h
    unfold Index.get_term_id
    rw [Numberer.get_of_lookup_some h]
  · intro idx w hl hbound
    unfold Index.get_term_id
    rw [Numberer.get_of_lookup_none hl]
    refine ⟨rfl, rfl, ?_, rfl, ?_⟩
    · unfold Numberer.lookup
      rw [List.find?_append, Numberer.lookup_none_find? hl]
      simp
    · unfold DataBase.retrieve_term
      rw [List.filter_eq_nil_iff.mpr, List.map_nil]
      intro r hr
      simp only [beq_iff_eq]
      have := hbound r hr
      omega

/-- Witness for C2 at a concrete index: resolving the unknown token `"z"`
with dictionary `{"x" ↦ 1}` and a one-posting matrix yields the fresh id 2
with an empty postings list. -/
theorem claim_C2_witness :
    (Index.get_term_id ⟨⟨[⟨0, 1, 1⟩], [⟨0, "docA", "tA"⟩]⟩, ⟨[("x", 1)], 1⟩, 1⟩
        "z").1 = 2 ∧
    DataBase.retrieve_term ⟨[⟨0, 1, 1⟩], [⟨0, "docA", "tA"⟩]⟩
        ((Index.get_term_id ⟨⟨[⟨0, 1, 1⟩], [⟨0, "docA", "tA"⟩]⟩, ⟨[("x", 1)], 1⟩, 1⟩
          "z").1) = [] := by
  have h := claim_C2.2 ⟨⟨[⟨0, 1, 1⟩], [⟨0, "docA", "tA"⟩]⟩, ⟨[("x", 1)], 1⟩, 1⟩ "z"
    (by decide) (by decide)
  exact ⟨h.1, h.2.2.2.2⟩

/-! ## Document metadata lookups (C10) -/

lemma find?_docRow_unique {l : List DocRow} {d : ℕ} {row : DocRow}
    (hnd : (l.map DocRow.doc).Nodup) (hmem : row ∈ l) (hd : row.doc = d) :
    l.find? (fun r => r.doc == d) = some row := by
  induction l with
  | nil => cases hmem
  | cons a tl ih =>
    simp only [List.map_cons, List.nodup_cons] at hnd
    rcases List.mem_cons.mp hmem with rfl | hmem2
    · rw [List.find?_cons_of_pos _ (by simp [hd])]
    · have ha : ¬((fun r : DocRow => r.doc == d) a = true) := by
        simp only [beq_iff_eq]
        intro he
        exact hnd.1 (he ▸ hd ▸ List.mem_map_of_mem DocRow.doc hmem2)
      exact (List.find?_cons_of_neg tl ha).trans (ih hnd.2 hmem2)

/-- C10.  `get_document_name` and `get_fulltext` are partial: for a
`document_id` without a `document_table` row the single-row fetch yields
nothing and the subsequent subscription errors (modelled as `none`); for a
`document_id` with a row (unique, by the `document_id` primary key expressed
as `Nodup`), they return that row's stored name and fulltext. -/
theorem claim_C10 :
    ∀ (db : DataBase) (d : ℕ),
      ((∀ row ∈ db.docs, row.doc ≠ d) →
        db.get_document_name d = none ∧ db.get_fulltext d = none) ∧
      (∀ row ∈ db.docs, db.docIds.Nodup → row.doc = d →
        db.get_document_name d = some row.name ∧
          db.get_fulltext d = some row.fulltext) := by
  intro db d
  constructor
  · intro habs
    have hf : db.docs.find? (fun r => r.doc == d) = none := by
      rw [List.find?_eq_none]
      intro r hr
      simp only [beq_iff_eq]
      exact habs r hr
    unfold DataBase.get_document_name DataBase.get_fulltext
    rw [hf]
    exact ⟨rfl, rfl⟩
  · intro row hmem hnd hd
    have hf := find?_docRow_unique hnd hmem hd
    unfold DataBase.get_document_name DataBase.get_fulltext
    rw [hf]
    exact ⟨rfl, rfl⟩

/-- Witness for C10 at a concrete two-row table: id 5 has no row, so both
lookups crash (`none`); id 0 has a row, so both return its stored fields. -/
theorem claim_C10_witness :
    (DataBase.get_document_name ⟨[], [⟨0, "docA", "tA"⟩, ⟨1, "docB", "tB"⟩]⟩ 5 = none ∧
      DataBase.get_fulltext ⟨[], [⟨0, "docA", "tA"⟩, ⟨1, "docB", "tB"⟩]⟩ 5 = none) ∧
    (DataBase.get_document_name ⟨[], [⟨0, "docA", "tA"⟩, ⟨1, "docB", "tB"⟩]⟩ 0
        = some "docA" ∧
      DataBase.get_fulltext ⟨[], [⟨0, "docA", "tA"⟩, ⟨1, "docB", "tB"⟩]⟩ 0
        = some "tA") :=
  ⟨(claim_C10 ⟨[], [⟨0, "docA", "tA"⟩, ⟨1, "docB", "tB"⟩]⟩ 5).1 (by decide),
   (claim_C10 ⟨[], [⟨0, "docA", "tA"⟩, ⟨1, "docB", "tB"⟩]⟩ 0).2
     ⟨0, "docA", "tA"⟩ (by decide) (by decide) rfl⟩

/-! ## Prune semantics (C5) -/

lemma DataBase.remove_term_matrix (db : DataBase) (t : ℕ) :
    (db.remove_term t).matrix = db.matrix.filter (fun r => !(r.term == t)) := rfl

lemma DataBase.remove_terms_matrix (db : DataBase) (ts : List ℕ) :
    (db.remove_terms ts).matrix = db.matrix.filter (fun r => !(ts.contains r.term)) := by
  induction ts generalizing db with
  | nil => simp [DataBase.remove_terms]
  | cons t ts ih =>
    show (DataBase.remove_terms (db.remove_term t) ts).matrix = _
    rw [ih, DataBase.remove_term_matrix, List.filter_filter]
    apply List.filter_congr
    intro r _
    simp only [List.contains_cons, Bool.not_or]
    rw [Bool.and_comm]

lemma DataBase.remove_terms_filter_term (db : DataBase) {ts : List ℕ} {t : ℕ}
    (h : t ∉ ts) :
    (db.remove_terms ts).matrix.filter (fun r => r.term == t)
      = db.matrix.filter (fun r => r.term == t) := by
  rw [DataBase.remove_terms_matrix, List.filter_filter]
  apply List.filter_congr
  intro r _
  cases hrt : (r.term == t) with
  | false => simp
  | true =>
    simp only [beq_iff_eq] at hrt
    simp [hrt, h]

/-- C5.  Pruning with threshold `k` selects exactly the term ids present in
the matrix whose sum of scores is `≤ k`; all their postings are deleted; and
every term id still present in the matrix afterwards has total frequency
strictly greater than `k`. -/
theorem claim_C5 :
    ∀ (db : DataBase) (k : ℚ),
      (∀ t, t ∈ db.get_infrequent k ↔ t ∈ db.termsOf ∧ db.term_total t ≤ k) ∧
      (∀ t ∈ db.get_infrequent k,
        (db.remove_terms (db.get_infrequent k)).retrieve_term t = []) ∧
      (∀ t ∈ (db.remove_terms (db.get_infrequent k)).termsOf,
        k < (db.remove_terms (db.get_infrequent k)).term_total t) := by
  intro db k
  refine ⟨?_, ?_, ?_⟩
  · intro t
    unfold DataBase.get_infrequent
    rw [List.mem_filter]
    simp
  · intro t ht
    unfold DataBase.retrieve_term
    rw [DataBase.remove_terms_matrix, List.filter_filter]
    rw [List.filter_eq_nil_iff.mpr, List.map_nil]
    intro r _
    cases hrt : (r.term == t) with
    | false => simp
    | true =>
      simp only [beq_iff_eq] at hrt
      simp [hrt]
      exact ht
  · intro t ht
    have hmem : ∃ r ∈ (db.remove_terms (db.get_infrequent k)).matrix, r.term = t := by
      unfold DataBase.termsOf at ht
      rw [List.mem_dedup, List.mem_map] at ht
      obtain ⟨r, hr, hrt⟩ := ht
      exact ⟨r, hr, hrt⟩
    obtain ⟨r, hr, hrt⟩ := hmem
    rw [DataBase.remove_terms_matrix, List.mem_filter] at hr
    have hnot : t ∉ db.get_infrequent k := by
      intro hin
      have h2 := hr.2
      rw [hrt] at h2
      simp at h2
      exact h2 hin
    have htot : (db.remove_terms (db.get_infrequent k)).term_total t = db.term_total t := by
      unfold DataBase.term_total
      rw [DataBase.remove_terms_filter_term db hnot]
    rw [htot]
    by_contra hle
    push_neg at hle
    apply hnot
    unfold DataBase.get_infrequent
    rw [List.mem_filter]
    refine ⟨?_, by simpa using hle⟩
    unfold DataBase.termsOf
    rw [List.mem_dedup, List.mem_map]
    exact ⟨r, hr.1, hrt⟩

/-- Witness for C5 at a concrete store (docs 0 and 1 share term 1, doc 0
alone has term 2) with threshold 1: term 2 (total 1) is selected and its
postings vanish; the surviving term 1 has total 2 > 1. -/
theorem claim_C5_witness :
    ((1 : ℕ) ∈ DataBase.get_infrequent ⟨[⟨0, 1, 1⟩, ⟨0, 2, 1⟩, ⟨1, 1, 1⟩], []⟩ 1
        ↔ (1 : ℕ) ∈ DataBase.termsOf ⟨[⟨0, 1, 1⟩, ⟨0, 2, 1⟩, ⟨1, 1, 1⟩], []⟩
          ∧ DataBase.term_total ⟨[⟨0, 1, 1⟩, ⟨0, 2, 1⟩, ⟨1, 1, 1⟩], []⟩ 1 ≤ 1) ∧
    (DataBase.remove_terms ⟨[⟨0, 1, 1⟩, ⟨0, 2, 1⟩, ⟨1, 1, 1⟩], []⟩
        (DataBase.get_infrequent ⟨[⟨0, 1, 1⟩, ⟨0, 2, 1⟩, ⟨1, 1, 1⟩], []⟩ 1)).retrieve_term 2
      = [] ∧
    (1 : ℚ) < (DataBase.remove_terms ⟨[⟨0, 1, 1⟩, ⟨0, 2, 1⟩, ⟨1, 1, 1⟩], []⟩
        (DataBase.get_infrequent ⟨[⟨0, 1, 1⟩, ⟨0, 2, 1⟩, ⟨1, 1, 1⟩], []⟩ 1)).term_total 1 := by
  have e1 : DataBase.term_total ⟨[⟨0, 1, 1⟩, ⟨0, 2, 1⟩, ⟨1, 1, 1⟩], []⟩ 1 = 2 := by
    simp [DataBase.term_total]
    norm_num
  have e2 : DataBase.term_total ⟨[⟨0, 1, 1⟩, ⟨0, 2, 1⟩, ⟨1, 1, 1⟩], []⟩ 2 = 1 := by
    simp [DataBase.term_total]
  have hsel : DataBase.get_infrequent ⟨[⟨0, 1, 1⟩, ⟨0, 2, 1⟩, ⟨1, 1, 1⟩], []⟩ 1 = [2] := by
    unfold DataBase.get_infrequent
    rw [show DataBase.termsOf ⟨[⟨0, 1, 1⟩, ⟨0, 2, 1⟩, ⟨1, 1, 1⟩], []⟩ = [2, 1] from by decide]
    rw [List.filter_cons, List.filter_cons, List.filter_nil, e1, e2]
    norm_num
  refine ⟨(claim_C5 ⟨[⟨0, 1, 1⟩, ⟨0, 2, 1⟩, ⟨1, 1, 1⟩], []⟩ 1).1 1,
    (claim_C5 ⟨[⟨0, 1, 1⟩, ⟨0, 2, 1⟩, ⟨1, 1, 1⟩], []⟩ 1).2.1 2 ?_,
    (claim_C5 ⟨[⟨0, 1, 1⟩, ⟨0, 2, 1⟩, ⟨1, 1, 1⟩], []⟩ 1).2.2 1 ?_⟩
  · rw [hsel]
    decide
  · rw [hsel]
    decide

/-! ## The `auto_delete` cascade (C6) -/

lemma DataBase.remove_term_docs (db : DataBase) (t : ℕ) :
    (db.remove_term t).docs = db.docs.filter (fun dr =>
      !(db.matrix.any (fun r => r.doc == dr.doc && r.term == t) &&
        !((db.matrix.filter (fun r => !(r.term == t))).any
            (fun r => r.doc == dr.doc)))) := rfl

lemma DataBase.remove_term_docs_keep {db : DataBase} {t : ℕ} {dr : DocRow}
    (hdr : dr ∈ db.docs)
    (hpost : ∃ r ∈ (db.remove_term t).matrix, r.doc = dr.doc) :
    dr ∈ (db.remove_term t).docs := by
  rw [DataBase.remove_term_docs, List.mem_filter]
  refine ⟨hdr, ?_⟩
  have hany : ((db.matrix.filter (fun r => !(r.term == t))).any
      (fun r => r.doc == dr.doc)) = true := by
    rw [List.any_eq_true]
    obtain ⟨r, hr, hd⟩ := hpost
    exact ⟨r, hr, by simp [hd]⟩
  rw [hany]
  simp

lemma DataBase.remove_term_docs_drop {db : DataBase} {t : ℕ} {d : ℕ}
    (hbefore : ∃ r ∈ db.matrix, r.doc = d)
    (hafter : ¬∃ r ∈ (db.remove_term t).matrix, r.doc = d) :
    ∀ dr ∈ (db.remove_term t).docs, dr.doc ≠ d := by
  intro dr hdr hdd
  rw [DataBase.remove_term_docs, List.mem_filter] at hdr
  have hP := hdr.2
  have hany2 : ((db.matrix.filter (fun r => !(r.term == t))).any
      (fun r => r.doc == dr.doc)) = false := by
    rw [List.any_eq_false]
    intro r hr
    simp only [beq_iff_eq]
    intro he
    exact hafter ⟨r, hr, by rw [he, hdd]⟩
  have hany1 : (db.matrix.any (fun r => r.doc == dr.doc && r.term == t)) = true := by
    rw [List.any_eq_true]
    obtain ⟨r0, hr0, hd0⟩ := hbefore
    refine ⟨r0, hr0, ?_⟩
    have ht0 : r0.term = t := by
      by_contra hne
      exact hafter ⟨r0, List.mem_filter.mpr ⟨hr0, by simp [hne]⟩, hd0⟩
    simp [hd0, hdd, ht0]
  rw [hany1, hany2] at hP
  simp at hP

lemma DataBase.remove_terms_cons (db : DataBase) (t : ℕ) (ts : List ℕ) :
    db.remove_terms (t :: ts) = (db.remove_term t).remove_terms ts := rfl

lemma DataBase.remove_terms_docs_sub (ts : List ℕ) :
    ∀ db : DataBase, (db.remove_terms ts).docs ⊆ db.docs := by
  induction ts with
  | nil => intro db; exact fun a ha => ha
  | cons t ts ih =>
    intro db
    rw [DataBase.remove_terms_cons]
    exact fun a ha => (List.filter_sublist _).subset (ih (db.remove_term t) ha)

lemma DataBase.remove_terms_keep (ts : List ℕ) :
    ∀ (db : DataBase) (dr : DocRow), dr ∈ db.docs →
      (∃ r ∈ (db.remove_terms ts).matrix, r.doc = dr.doc) →
      dr ∈ (db.remove_terms ts).docs := by
  induction ts with
  | nil => intro db dr hdr _; exact hdr
  | cons t ts ih =>
    intro db dr hdr hpost
    rw [DataBase.remove_terms_cons] at hpost ⊢
    have hmid : ∃ r ∈ (db.remove_term t).matrix, r.doc = dr.doc := by
      obtain ⟨r, hr, hd⟩ := hpost
      rw [DataBase.remove_terms_matrix, List.mem_filter] at hr
      exact ⟨r, hr.1, hd⟩
    exact ih (db.remove_term t) dr (DataBase.remove_term_docs_keep hdr hmid) hpost

lemma DataBase.remove_terms_drop (ts : List ℕ) :
    ∀ (db : DataBase) (d : ℕ), (∃ r ∈ db.matrix, r.doc = d) →
      (¬∃ r ∈ (db.remove_terms ts).matrix, r.doc = d) →
      ∀ dr ∈ (db.remove_terms ts).docs, dr.doc ≠ d := by
  induction ts with
  | nil => intro db d hb ha; exact absurd hb ha
  | cons t ts ih =>
    intro db d hb ha
    rw [DataBase.remove_terms_cons] at ha ⊢
    by_cases hmid : ∃ r ∈ (db.remove_term t).matrix, r.doc = d
    · exact ih (db.remove_term t) d hmid ha
    · intro dr hdr
      exact DataBase.remove_term_docs_drop hb hmid dr
        (DataBase.remove_terms_docs_sub ts (db.remove_term t) hdr)

/-- C6.  For every bulk deletion of term ids: a document that retains at
least one posting keeps its `document_table` row; a document that held
postings before and is left with none has its row removed by the
`auto_delete` trigger within the same delete; hence the invariant "every
`document_id` present in the sparse matrix has a `document_table` row" is
preserved by any delete. -/
theorem claim_C6 :
    (∀ (db : DataBase) (ts : List ℕ) (dr : DocRow), dr ∈ db.docs →
      (∃ r ∈ (db.remove_terms ts).matrix, r.doc = dr.doc) →
      dr ∈ (db.remove_terms ts).docs) ∧
    (∀ (db : DataBase) (ts : List ℕ) (d : ℕ),
      (∃ r ∈ db.matrix, r.doc = d) →
      (¬∃ r ∈ (db.remove_terms ts).matrix, r.doc = d) →
      ∀ dr ∈ (db.remove_terms ts).docs, dr.doc ≠ d) ∧
    (∀ (db : DataBase) (ts : List ℕ),
      (∀ d, (∃ r ∈ db.matrix, r.doc = d) → ∃ dr ∈ db.docs, dr.doc = d) →
      ∀ d, (∃ r ∈ (db.remove_terms ts).matrix, r.doc = d) →
        ∃ dr ∈ (db.remove_terms ts).docs, dr.doc = d) := by
  refine ⟨fun db ts dr hdr h => DataBase.remove_terms_keep ts db dr hdr h,
    fun db ts d hb ha => DataBase.remove_terms_drop ts db d hb ha, ?_⟩
  intro db ts hinv d hpost
  have hbefore : ∃ r ∈ db.matrix, r.doc = d := by
    obtain ⟨r, hr, hd⟩ := hpost
    rw [DataBase.remove_terms_matrix, List.mem_filter] at hr
    exact ⟨r, hr.1, hd⟩
  obtain ⟨dr, hdr, hdd⟩ := hinv d hbefore
  exact ⟨dr, DataBase.remove_terms_keep ts db dr hdr (hdd ▸ hpost), hdd⟩

/-- Witness for C6 at a concrete store (doc 0 has terms 1 and 2, doc 1 has
only term 1): deleting term 1 keeps doc 0's row and cascade-deletes
doc 1's row. -/
theorem claim_C6_witness :
    (⟨0, "docA", "tA"⟩ : DocRow) ∈
      (DataBase.remove_terms
        ⟨[⟨0, 1, 1⟩, ⟨0, 2, 1⟩, ⟨1, 1, 1⟩],
         [⟨0, "docA", "tA"⟩, ⟨1, "docB", "tB"⟩]⟩ [1]).docs ∧
    (⟨1, "docB", "tB"⟩ : DocRow) ∉
      (DataBase.remove_terms
        ⟨[⟨0, 1, 1⟩, ⟨0, 2, 1⟩, ⟨1, 1, 1⟩],
         [⟨0, "docA", "tA"⟩, ⟨1, "docB", "tB"⟩]⟩ [1]).docs := by
  constructor
  · exact claim_C6.1 ⟨[⟨0, 1, 1⟩, ⟨0, 2, 1⟩, ⟨1, 1, 1⟩],
      [⟨0, "docA", "tA"⟩, ⟨1, "docB", "tB"⟩]⟩ [1] ⟨0, "docA", "tA"⟩
      (by decide) ⟨⟨0, 2, 1⟩, by decide, rfl⟩
  · intro hmem
    exact claim_C6.2.1 ⟨[⟨0, 1, 1⟩, ⟨0, 2, 1⟩, ⟨1, 1, 1⟩],
      [⟨0, "docA", "tA"⟩, ⟨1, "docB", "tB"⟩]⟩ [1] 1
      ⟨⟨1, 1, 1⟩, by decide, rfl⟩ (by decide) ⟨1, "docB", "tB"⟩ hmem rfl

/-! ## Documents ingested with an empty token list (C9) -/

lemma DataBase.remove_terms_untouched (ts : List ℕ) :
    ∀ (db : DataBase) (dr : DocRow), dr ∈ db.docs →
      (∀ r ∈ db.matrix, r.doc ≠ dr.doc) →
      dr ∈ (db.remove_terms ts).docs ∧
        ∀ r ∈ (db.remove_terms ts).matrix, r.doc ≠ dr.doc := by
  induction ts with
  | nil => intro db dr hdr hno; exact ⟨hdr, hno⟩
  | cons t ts ih =>
    intro db dr hdr hno
    rw [DataBase.remove_terms_cons]
    have hstep : dr ∈ (db.remove_term t).docs := by
      rw [DataBase.remove_term_docs, List.mem_filter]
      refine ⟨hdr, ?_⟩
      have hany : (db.matrix.any (fun r => r.doc == dr.doc && r.term == t)) = false := by
        rw [List.any_eq_false]
        intro r hr
        simp only [Bool.and_eq_true, beq_iff_eq, not_and]
        intro hd
        exact absurd hd (hno r hr)
      rw [hany]
      simp
    have hno2 : ∀ r ∈ (db.remove_term t).matrix, r.doc ≠ dr.doc := by
      intro r hr
      exact hno r (List.mem_filter.mp hr).1
    exact ih (db.remove_term t) dr hstep hno2

lemma removeSeq_untouched (tss : List (List ℕ)) :
    ∀ (db : DataBase) (dr : DocRow), dr ∈ db.docs →
      (∀ r ∈ db.matrix, r.doc ≠ dr.doc) →
      dr ∈ (tss.foldl DataBase.remove_terms db).docs ∧
        ∀ r ∈ (tss.foldl DataBase.remove_terms db).matrix, r.doc ≠ dr.doc := by
  induction tss with
  | nil => intro db dr hdr hno; exact ⟨hdr, hno⟩
  | cons ts tss ih =>
    intro db dr hdr hno
    have h := DataBase.remove_terms_untouched ts db dr hdr hno
    exact ih (db.remove_terms ts) dr h.1 h.2

/-- C9.  Processing a document whose token list is empty inserts its
`document_table` row and no posting; provided every matrix row's
`document_id` is below the `num_documents` counter (fresh-id discipline of
ingest), the new document has zero postings, its row survives every
subsequent sequence of bulk term deletions — the cascade only fires on
deletion of one of the document's own postings — and its id appears in no
postings list of the resulting store. -/
theorem claim_C9 :
    ∀ (idx : Index) (name ft : String) (tss : List (List ℕ)),
      (∀ r ∈ idx.database.matrix, r.doc < idx.num_documents) →
      ((idx.process_document (name, [], ft)).database.docs
          = idx.database.docs ++ [⟨idx.num_documents, name, ft⟩]) ∧
      ((idx.process_document (name, [], ft)).database.matrix = idx.database.matrix) ∧
      ((⟨idx.num_documents, name, ft⟩ : DocRow) ∈
        (tss.foldl DataBase.remove_terms
          (idx.process_document (name, [], ft)).database).docs) ∧
      (∀ t, idx.num_documents ∉
        (tss.foldl DataBase.remove_terms
          (idx.process_document (name, [], ft)).database).retrieve_term t) := by
  intro idx name ft tss hbound
  have hdocs : (idx.process_document (name, [], ft)).database.docs
      = idx.database.docs ++ [⟨idx.num_documents, name, ft⟩] := rfl
  have hmat : (idx.process_document (name, [], ft)).database.matrix
      = idx.database.matrix := by
    show idx.database.matrix ++ [] = idx.database.matrix
    exact List.append_nil _
  have hno : ∀ r ∈ (idx.process_document (name, [], ft)).database.matrix,
      r.doc ≠ (⟨idx.num_documents, name, ft⟩ : DocRow).doc := by
    rw [hmat]
    intro r hr
    exact Nat.ne_of_lt (hbound r hr)
  have hdr : (⟨idx.num_documents, name, ft⟩ : DocRow) ∈
      (idx.process_document (name, [], ft)).database.docs := by
    rw [hdocs]
    exact List.mem_append_right _ (List.mem_singleton.mpr rfl)
  have h := removeSeq_untouched tss (idx.process_document (name, [], ft)).database
    ⟨idx.num_documents, name, ft⟩ hdr hno
  refine ⟨hdocs, hmat, h.1, ?_⟩
  intro t hmem
  unfold DataBase.retrieve_term at hmem
  rw [List.mem_map] at hmem
  obtain ⟨r, hr, hd⟩ := hmem
  exact h.2 r (List.mem_filter.mp hr).1 hd

/-- Witness for C9: an index with one ingested document, after ingesting an
empty-token document (id 1) and then deleting term 1, keeps document 1's
row, and document 1 appears in no postings list. -/
theorem claim_C9_witness :
    ((⟨1, "empty", "e"⟩ : DocRow) ∈
      ([[1]].foldl DataBase.remove_terms
        ((Index.process_document ⟨⟨[⟨0, 1, 1⟩], [⟨0, "docA", "tA"⟩]⟩,
          ⟨[("x", 1)], 1⟩, 1⟩ ("empty", [], "e")).database)).docs) ∧
    ((1 : ℕ) ∉
      ([[1]].foldl DataBase.remove_terms
        ((Index.process_document ⟨⟨[⟨0, 1, 1⟩], [⟨0, "docA", "tA"⟩]⟩,
          ⟨[("x", 1)], 1⟩, 1⟩ ("empty", [], "e")).database)).retrieve_term 1) := by
  have h := claim_C9 ⟨⟨[⟨0, 1, 1⟩], [⟨0, "docA", "tA"⟩]⟩, ⟨[("x", 1)], 1⟩, 1⟩
    "empty" "e" [[1]] (by decide)
  exact ⟨h.2.2.1, h.2.2.2 1⟩

/-! ## Candidate sets of `query_index` (C1) -/

/-- The two-document corpus of the spec's conjunctive/disjunctive scenario. -/
def exampleCorpus : List (String × List String × String) :=
  [("docA", ["x", "y"], "tA"), ("docB", ["x"], "tB")]

/-- The example corpus after ingest and prune with threshold 1 (term `"y"`,
total frequency 1 ≤ 1, is pruned). -/
def exampleIndex : Index :=
  (Index.init.make_indices exampleCorpus).remove_infrequent 1

lemma exampleIndex_eq : exampleIndex
    = ⟨⟨[⟨0, 1, 1⟩, ⟨1, 1, 1⟩], [⟨0, "docA", "tA"⟩, ⟨1, "docB", "tB"⟩]⟩,
       ⟨[("x", 1)], 2⟩, 2⟩ := by
  have hmk : Index.make_indices Index.init exampleCorpus
      = ⟨⟨[⟨0, 1, 1⟩, ⟨0, 2, 1⟩, ⟨1, 1, 1⟩], [⟨0, "docA", "tA"⟩, ⟨1, "docB", "tB"⟩]⟩,
         ⟨[("x", 1), ("y", 2)], 2⟩, 2⟩ := by decide
  have e1 : DataBase.term_total
      ⟨[⟨0, 1, 1⟩, ⟨0, 2, 1⟩, ⟨1, 1, 1⟩], [⟨0, "docA", "tA"⟩, ⟨1, "docB", "tB"⟩]⟩ 1
        = 2 := by
    simp [DataBase.term_total]
    norm_num
  have e2 : DataBase.term_total
      ⟨[⟨0, 1, 1⟩, ⟨0, 2, 1⟩, ⟨1, 1, 1⟩], [⟨0, "docA", "tA"⟩, ⟨1, "docB", "tB"⟩]⟩ 2
        = 1 := by
    simp [DataBase.term_total]
  have hsel : DataBase.get_infrequent
      ⟨[⟨0, 1, 1⟩, ⟨0, 2, 1⟩, ⟨1, 1, 1⟩], [⟨0, "docA", "tA"⟩, ⟨1, "docB", "tB"⟩]⟩ 1
        = [2] := by
    unfold DataBase.get_infrequent
    rw [show DataBase.termsOf
        ⟨[⟨0, 1, 1⟩, ⟨0, 2, 1⟩, ⟨1, 1, 1⟩], [⟨0, "docA", "tA"⟩, ⟨1, "docB", "tB"⟩]⟩
          = [2, 1] from by decide]
    rw [List.filter_cons, List.filter_cons, List.filter_nil, e1, e2]
    norm_num
  unfold exampleIndex
  rw [hmk]
  unfold Index.remove_infrequent
  rw [hsel]
  decide

lemma queryCandidates_conj (db : DataBase) (ts : List ℕ) :
    queryCandidates db ts true = ∅ := by
  unfold queryCandidates
  induction ts with
  | nil => rfl
  | cons t ts ih =>
    rw [List.foldl_cons]
    have hstep : candidateStep db true ∅ t = ∅ := by
      unfold candidateStep
      simp
    rw [hstep]
    exact ih

lemma queryCandidates_disj_mem_aux (db : DataBase) (d : ℕ) (ts : List ℕ) :
    ∀ acc : Finset ℕ,
      (d ∈ ts.foldl (candidateStep db false) acc
        ↔ d ∈ acc ∨ ∃ t ∈ ts, d ∈ db.retrieve_term t) := by
  induction ts with
  | nil => intro acc; simp
  | cons t ts ih =>
    intro acc
    rw [List.foldl_cons]
    have hstep : candidateStep db false acc t = acc ∪ (db.retrieve_term t).toFinset := by
      unfold candidateStep
      simp
    rw [hstep, ih]
    simp only [Finset.mem_union, List.mem_toFinset, List.mem_cons]
    constructor
    · rintro ((h | h) | ⟨u, hu, hd⟩)
      · exact Or.inl h
      · exact Or.inr ⟨t, Or.inl rfl, h⟩
      · exact Or.inr ⟨u, Or.inr hu, hd⟩
    · rintro (h | ⟨u, (rfl | hu), hd⟩)
      · exact Or.inl (Or.inl h)
      · exact Or.inl (Or.inr hd)
      · exact Or.inr ⟨u, hu, hd⟩

/-- C1, counterexample.  On the spec's own corpus (`docA = ["x","y"]`,
`docB = ["x"]`, threshold 1) the deduplicated conjunctive query `"x y"`
resolves to term ids 1 (`"x"`) and 3 (`"y"` is pruned, so the dictionary
allocates the fresh id 3), in either set order; the candidate set computed by
`query_index` is empty — not `{docA}` (document 0) as claimed, because
`candidates` is pre-assigned `set()` and the `'candidates' not in locals()`
initialization never fires. -/
theorem claim_C1_counterexample :
    (exampleIndex.get_term_id "x").1 = 1 ∧
    (((exampleIndex.get_term_id "x").2).get_term_id "y").1 = 3 ∧
    (exampleIndex.get_term_id "y").1 = 3 ∧
    (((exampleIndex.get_term_id "y").2).get_term_id "x").1 = 1 ∧
    queryCandidates exampleIndex.database [1, 3] true = ∅ ∧
    queryCandidates exampleIndex.database [3, 1] true = ∅ ∧
    (∅ : Finset ℕ) ≠ ({0} : Finset ℕ) := by
  rw [exampleIndex_eq]
  refine ⟨by decide, by decide, by decide, by decide, ?_, ?_, by decide⟩
  · exact queryCandidates_conj _ _
  · exact queryCandidates_conj _ _

/-- C1, amended.  The candidate set built by `query_index` is: for a
disjunctive query, the union of the terms' postings lists (membership
characterization); for a conjunctive query, always the empty set, because
`candidates` is initialized to `set()` before the loop and every iteration
intersects into it.  On the example corpus with threshold 1, the disjunctive
query `"x y"` (term ids `{1, 3}` in either order) yields both documents and
the conjunctive query yields no candidates. -/
theorem claim_C1 :
    (∀ (db : DataBase) (ts : List ℕ), queryCandidates db ts true = ∅) ∧
    (∀ (db : DataBase) (ts : List ℕ) (d : ℕ),
      d ∈ queryCandidates db ts false ↔ ∃ t ∈ ts, d ∈ db.retrieve_term t) ∧
    queryCandidates exampleIndex.database [1, 3] false = {0, 1} ∧
    queryCandidates exampleIndex.database [3, 1] false = {0, 1} ∧
    queryCandidates exampleIndex.database [1, 3] true = ∅ ∧
    queryCandidates exampleIndex.database [3, 1] true = ∅ := by
  refine ⟨queryCandidates_conj, ?_, ?_, ?_, queryCandidates_conj _ _,
    queryCandidates_conj _ _⟩
  · intro db ts d
    unfold queryCandidates
    rw [queryCandidates_disj_mem_aux db d ts ∅]
    simp
  · rw [exampleIndex_eq]
    decide
  · rw [exampleIndex_eq]
    decide

/-! ## Zero-norm normalization (C3) -/

/-- A single-document corpus: the one document's only term has
`idf = log2(1/1) = 0`, so its tf-idf vector is nonzero-length with L2 norm
zero. -/
def singleDocCorpus : List (String × List String × String) :=
  [("docA", ["a"], "tA")]

/-- The database after ingesting `singleDocCorpus`. -/
def singleDocDB : DataBase := ⟨[⟨0, 1, 1⟩], [⟨0, "docA", "tA"⟩]⟩

lemma singleDoc_pipeline :
    (Index.init.make_indices singleDocCorpus).remove_infrequent 0
      = ⟨singleDocDB, ⟨[("a", 1)], 1⟩, 1⟩ := by
  have hmk : Index.make_indices Index.init singleDocCorpus
      = ⟨singleDocDB, ⟨[("a", 1)], 1⟩, 1⟩ := by decide
  have e1 : singleDocDB.term_total 1 = 1 := by
    simp [DataBase.term_total, singleDocDB]
  have hsel : singleDocDB.get_infrequent 0 = [] := by
    unfold DataBase.get_infrequent
    rw [show singleDocDB.termsOf = [1] from by decide]
    rw [List.filter_cons, List.filter_nil, e1]
    norm_num
  rw [hmk]
  unfold Index.remove_infrequent
  rw [hsel]
  decide

/-- C3.  The scoring pass does not skip normalization on a zero L2 norm: for
any `log2`/`sqrt` agreeing with the exact double-precision values
`log2 1 = 0` and `sqrt 0 = 0`, the single-document build with threshold 0
reaches a document whose nonempty tf-idf vector is all zeros and divides by
the zero norm — `ZeroDivisionError`, modelled as `none`; and the query-time
normalization in `query_to_tfidf` divides by zero in the same way for a
query vector of norm 0 (a term of idf 0 against an empty store with
`N = 1`), instead of yielding an empty result set. -/
theorem claim_C3 :
    ∀ log2 sqrt : ℚ → ℚ, log2 1 = 0 → sqrt 0 = 0 →
      buildIndex singleDocCorpus 0 log2 sqrt = none ∧
      query_to_tfidf log2 sqrt 1 ⟨[], []⟩ [2] = none := by
  intro log2 sqrt hlog hsqrt
  constructor
  · have hdf : singleDocDB.get_document_frequency 1 = 1 := by decide
    have hidf : get_idf log2 1 singleDocDB 1 = log2 1 := by
      unfold get_idf
      rw [hdf]
      norm_num
    have htf : tfidf log2 1 singleDocDB 1 1 = 0 := by
      unfold tfidf
      rw [hidf, hlog, mul_zero]
    have hnorm : l2_norm sqrt [(0 : ℚ)] = sqrt 0 := by
      unfold l2_norm
      norm_num
    have hstep : Index.transform_step log2 sqrt 1 singleDocDB 0 = none := by
      unfold Index.transform_step
      simp only []
      rw [show singleDocDB.retrieve_document 0 = [(1, 1)] from by decide]
      rw [List.map_cons, List.map_nil, htf, List.map_cons, List.map_nil]
      rw [hnorm, hsqrt]
      unfold normalizeDoc
      simp
    unfold buildIndex
    rw [singleDoc_pipeline]
    unfold Index.transform_to_tfidf
    rw [show List.range 1 = [0] from by decide]
    rw [List.foldlM_cons]
    rw [show (⟨singleDocDB, ⟨[("a", 1)], 1⟩, 1⟩ : Index).num_documents = 1 from rfl,
      show (⟨singleDocDB, ⟨[("a", 1)], 1⟩, 1⟩ : Index).database = singleDocDB from rfl]
    rw [hstep]
    rfl
  · have hdf : (⟨[], []⟩ : DataBase).get_document_frequency 2 = 0 := by decide
    have hidf : get_idf log2 1 ⟨[], []⟩ 2 = log2 1 := by
      unfold get_idf
      rw [hdf]
      norm_num
    have htf : tfidf log2 1 ⟨[], []⟩ 2 1 = 0 := by
      unfold tfidf
      rw [hidf, hlog, mul_zero]
    unfold query_to_tfidf
    simp only []
    rw [List.map_cons, List.map_nil, htf, List.map_cons, List.map_nil]
    rw [show l2_norm sqrt [(0 : ℚ)] = sqrt 0 from by unfold l2_norm; norm_num, hsqrt]
    simp

/-- Witness for C3 with `log2` and `sqrt` instantiated by constant-zero
functions, which satisfy the hypotheses `log2 1 = 0` and `sqrt 0 = 0`. -/
theorem claim_C3_witness :
    buildIndex singleDocCorpus 0 (fun _ => 0) (fun _ => 0) = none ∧
    query_to_tfidf (fun _ => 0) (fun _ => 0) 1 ⟨[], []⟩ [2] = none :=
  claim_C3 (fun _ => 0) (fun _ => 0) rfl rfl

/-! ## The idf formula (C4) -/

/-- Document frequency as the spec words it: the number of distinct
documents whose postings contain the term. -/
def distinctDocFrequency (db : DataBase) (t : ℕ) : ℕ :=
  ((db.matrix.filter (fun r => r.term == t)).map Row.doc).dedup.length

/-- State invariant of the build pipeline: the `(document_id, term_id)`
primary key is unique, and every matrix row's document id is below the
`num_documents` counter. -/
def IndexInv (idx : Index) : Prop :=
  (idx.database.matrix.map (fun r => (r.doc, r.term))).Nodup ∧
  ∀ r ∈ idx.database.matrix, r.doc < idx.num_documents

lemma firstOccs_nodup (l : List ℕ) : (firstOccs l).Nodup := by
  induction l with
  | nil => exact List.nodup_nil
  | cons t ts ih =>
    rw [firstOccs, List.nodup_cons]
    constructor
    · intro hmem
      have := (List.mem_filter.mp hmem).2
      simp at this
    · exact ih.filter _

lemma process_document_pairs (idx : Index) (doc : String × List String × String) :
    (idx.process_document doc).database.matrix.map (fun r => (r.doc, r.term))
      = (idx.database.matrix.map (fun r => (r.doc, r.term)))
        ++ (firstOccs (idx.vocabulary_indices.getList doc.2.1).1).map
            (fun t => (idx.num_documents, t)) := by
  show ((idx.database.matrix ++ _).map _) = _
  rw [List.map_append]
  congr 1
  rw [List.map_map, List.map_map]
  unfold counterItems
  rw [List.map_map]
  rfl

lemma indexInv_process {idx : Index} (doc : String × List String × String)
    (h : IndexInv idx) : IndexInv (idx.process_document doc) := by
  obtain ⟨hpk, hbound⟩ := h
  constructor
  · rw [process_document_pairs, List.nodup_append]
    refine ⟨hpk, ?_, ?_⟩
    · exact (firstOccs_nodup _).map (fun a b hab => by
        simpa using congrArg Prod.snd hab)
    · rw [List.disjoint_left]
      intro a ha hb
      rw [List.mem_map] at ha hb
      obtain ⟨r, hr, rfl⟩ := ha
      obtain ⟨t, _, hteq⟩ := hb
      have h1 : idx.num_documents = r.doc := congrArg Prod.fst hteq
      exact absurd h1.symm (Nat.ne_of_lt (hbound r hr))
  · intro r hr
    have : (idx.process_document doc).database.matrix
        = idx.database.matrix ++ _ := rfl
    rw [this, List.mem_append] at hr
    show r.doc < idx.num_documents + 1
    rcases hr with hr | hr
    · exact Nat.lt_succ_of_lt (hbound r hr)
    · rw [List.mem_map] at hr
      obtain ⟨p, _, rfl⟩ := hr
      exact Nat.lt_succ_self _

lemma indexInv_make (docs : List (String × List String × String)) :
    ∀ idx : Index, IndexInv idx → IndexInv (idx.make_indices docs) := by
  induction docs with
  | nil => intro idx h; exact h
  | cons doc docs ih =>
    intro idx h
    exact ih (idx.process_document doc) (indexInv_process doc h)

lemma indexInv_prune {idx : Index} (k : ℚ) (h : IndexInv idx) :
    IndexInv (idx.remove_infrequent k) := by
  obtain ⟨hpk, hbound⟩ := h
  have hmat : (idx.remove_infrequent k).database.matrix
      = idx.database.matrix.filter
          (fun r => !((idx.database.get_infrequent k).contains r.term)) :=
    DataBase.remove_terms_matrix _ _
  constructor
  · rw [hmat]
    exact ((List.filter_sublist _).map _).nodup hpk
  · intro r hr
    rw [hmat] at hr
    exact hbound r (List.mem_filter.mp hr).1

lemma make_indices_num (docs : List (String × List String × String)) :
    ∀ idx : Index, (idx.make_indices docs).num_documents
      = idx.num_documents + docs.length := by
  induction docs with
  | nil => intro idx; rfl
  | cons doc docs ih =>
    intro idx
    show (Index.make_indices (idx.process_document doc) docs).num_documents = _
    rw [ih]
    show idx.num_documents + 1 + docs.length = _
    rw [List.length_cons]
    omega

lemma df_eq_distinct {db : DataBase} (t : ℕ)
    (hpk : (db.matrix.map (fun r => (r.doc, r.term))).Nodup) :
    db.get_document_frequency t = distinctDocFrequency db t := by
  have hsub : ((db.matrix.filter (fun r => r.term == t)).map
      (fun r => (r.doc, r.term))).Nodup :=
    ((List.filter_sublist _).map _).nodup hpk
  have hrows : (db.matrix.filter (fun r => r.term == t)).Nodup :=
    hsub.of_map _
  have hterm : ∀ r ∈ db.matrix.filter (fun r => r.term == t), r.term = t := by
    intro r hr
    have := (List.mem_filter.mp hr).2
    simpa using this
  have hdocs : ((db.matrix.filter (fun r => r.term == t)).map Row.doc).Nodup := by
    refine List.Nodup.map_on ?_ hrows
    intro x hx y hy hxy
    refine List.inj_on_of_nodup_map hsub hx hy ?_
    rw [Prod.ext_iff]
    exact ⟨hxy, by rw [hterm x hx, hterm y hy]⟩
  unfold DataBase.get_document_frequency distinctDocFrequency
  rw [List.dedup_eq_self.mpr hdocs, List.length_map]

/-- C4.  In the state reached by ingest followed by prune: the document
count used by `get_idf` equals the number of ingested documents (prune does
not decrease it); `get_idf` computes `log2(N / max(df, 1))` where `df` is
the number of distinct documents whose postings contain the term (the code
counts matching rows, which coincide by primary-key uniqueness); the
denominator `max(df, 1)` is at least 1, hence never zero, for every term id
including unknown ones; and for a nonempty corpus the argument of `log2` is
strictly positive, so the idf is finite.  Both document scoring and query
evaluation take their idf from this one function (`tfidf` multiplies the
frequency — 1 on the query side — by `get_idf`). -/
theorem claim_C4 :
    ∀ (docs : List (String × List String × String)) (k : ℚ) (log2 : ℚ → ℚ),
      ((Index.init.make_indices docs).remove_infrequent k).num_documents
          = docs.length ∧
      (∀ t, ((Index.init.make_indices docs).remove_infrequent k).get_idf log2 t
          = log2 ((docs.length : ℚ)
              / max (distinctDocFrequency
                  ((Index.init.make_indices docs).remove_infrequent k).database t : ℚ)
                1)) ∧
      (∀ (N : ℕ) (db : DataBase) (t : ℕ) (f : ℚ),
        tfidf log2 N db t f = f * get_idf log2 N db t) ∧
      (∀ (db : DataBase) (t : ℕ), (1 : ℚ) ≤ max (db.get_document_frequency t : ℚ) 1) ∧
      (docs ≠ [] → ∀ t, 0 < (docs.length : ℚ)
          / max (distinctDocFrequency
              ((Index.init.make_indices docs).remove_infrequent k).database t : ℚ) 1) := by
  intro docs k log2
  have hN : ((Index.init.make_indices docs).remove_infrequent k).num_documents
      = docs.length := by
    show (Index.init.make_indices docs).num_documents = docs.length
    rw [make_indices_num docs Index.init]
    show 0 + docs.length = docs.length
    omega
  have hinv : IndexInv ((Index.init.make_indices docs).remove_infrequent k) :=
    indexInv_prune k (indexInv_make docs Index.init ⟨List.nodup_nil, by
      intro r hr
      cases hr⟩)
  refine ⟨hN, ?_, fun N db t f => rfl, ?_, ?_⟩
  · intro t
    unfold Index.get_idf get_idf
    rw [hN, df_eq_distinct t hinv.1]
  · intro db t
    exact le_max_right _ _
  · intro hne t
    apply div_pos
    · have : 0 < docs.length := List.length_pos.mpr hne
      exact_mod_cast this
    · exact lt_of_lt_of_le one_pos (le_max_right _ _)

/-- Witness for C4 on the two-document example corpus with threshold 1 and a
nonempty corpus for the positivity clause. -/
theorem claim_C4_witness :
    ((Index.init.make_indices exampleCorpus).remove_infrequent 1).num_documents = 2 ∧
    (0 : ℚ) < (2 : ℚ)
        / max (distinctDocFrequency
            ((Index.init.make_indices exampleCorpus).remove_infrequent 1).database 1 : ℚ)
          1 := by
  have h := claim_C4 exampleCorpus 1 (fun _ => 0)
  refine ⟨h.1, ?_⟩
  have h5 := h.2.2.2.2 (by decide) 1
  rw [show (exampleCorpus.length : ℚ) = 2 from by decide] at h5
  exact h5

/-! ## Ranking order and determinism (C8) -/

instance : IsTotal (ℚ × ℕ) simGE := ⟨by
  intro a b
  unfold simGE
  rcases lt_trichotomy a.1 b.1 with h | h | h
  · exact Or.inr (Or.inl h)
  · rcases le_total a.2 b.2 with h2 | h2
    · exact Or.inr (Or.inr ⟨h, h2⟩)
    · exact Or.inl (Or.inr ⟨h.symm, h2⟩)
  · exact Or.inl (Or.inl h)⟩

instance : IsTrans (ℚ × ℕ) simGE := ⟨by
  intro a b c hab hbc
  unfold simGE at hab hbc ⊢
  rcases hab with h1 | ⟨h1, h1'⟩ <;> rcases hbc with h2 | ⟨h2, h2'⟩
  · exact Or.inl (h2.trans h1)
  · exact Or.inl (h2 ▸ h1)
  · exact Or.inl (h1 ▸ h2)
  · exact Or.inr ⟨h2.trans h1, h2'.trans h1'⟩⟩

instance : IsAntisymm (ℚ × ℕ) simGE := ⟨by
  intro a b hab hba
  unfold simGE at hab hba
  rcases hab with h | ⟨h, hle⟩
  · rcases hba with h' | ⟨h', _⟩
    · exact absurd (h.trans h') (lt_irrefl _)
    · exfalso
      rw [h'] at h
      exact lt_irrefl _ h
  · rcases hba with h' | ⟨h', hle'⟩
    · exfalso
      rw [h] at h'
      exact lt_irrefl _ h'
    · exact Prod.ext h.symm (le_antisymm hle' hle)⟩

/-- C8.  The emitted top-K sequence of `query_index` orders `(similarity,
document_id)` tuples in descending lexicographic tuple order — descending
similarity, ties broken by descending `document_id`, exactly how
`heapq.nlargest` compares the tuples produced by `get_similarity` — and it
is invariant under reordering of the candidate set: for any permutation of
the candidates (the iteration order of the Python `set` is unspecified) the
result sequence is identical, so it is unique for a fixed store and query.
Every emitted pair is `get_similarity` of its candidate. -/
theorem claim_C8 :
    ∀ (db : DataBase) (query_tfidfs : List (ℕ × ℚ)) (c₁ c₂ : List ℕ) (n : ℕ),
      c₁.Perm c₂ →
      queryResults db query_tfidfs c₁ n = queryResults db query_tfidfs c₂ n ∧
      List.Sorted simGE (queryResults db query_tfidfs c₁ n) ∧
      (∀ s d, (s, d) ∈ queryResults db query_tfidfs c₁ n →
        (s, d) = get_similarity db query_tfidfs d) := by
  intro db q c₁ c₂ n hperm
  have hsorted : ∀ c : List ℕ, List.Sorted simGE
      (((c.map (get_similarity db q)).insertionSort simGE)) :=
    fun c => List.sorted_insertionSort simGE _
  refine ⟨?_, ?_, ?_⟩
  · unfold queryResults nlargest
    congr 1
    apply List.eq_of_perm_of_sorted ?_ (hsorted c₁) (hsorted c₂)
    exact (List.perm_insertionSort _ _).trans
      ((hperm.map _).trans (List.perm_insertionSort _ _).symm)
  · unfold queryResults nlargest
    exact (hsorted c₁).sublist (List.take_sublist _ _)
  · intro s d hmem
    unfold queryResults nlargest at hmem
    have hmem2 : (s, d) ∈ (c₁.map (get_similarity db q)).insertionSort simGE :=
      List.take_subset _ _ hmem
    rw [List.mem_insertionSort, List.mem_map] at hmem2
    obtain ⟨c, _, hc⟩ := hmem2
    have hd : c = d := by
      have := congrArg Prod.snd hc
      simpa [get_similarity] using this
    rw [← hc, hd]

/-- Witness for C8: the two orderings `[0, 1]` and `[1, 0]` of a concrete
candidate set produce the same ranked sequence. -/
theorem claim_C8_witness :
    queryResults ⟨[⟨0, 1, 1⟩], [⟨0, "docA", "tA"⟩]⟩ [(1, 1)] [0, 1] 2
      = queryResults ⟨[⟨0, 1, 1⟩], [⟨0, "docA", "tA"⟩]⟩ [(1, 1)] [1, 0] 2 :=
  (claim_C8 ⟨[⟨0, 1, 1⟩], [⟨0, "docA", "tA"⟩]⟩ [(1, 1)] [0, 1] [1, 0] 2
    (List.Perm.swap 1 0 [])).1

end RedditQuery
